import Mathlib

/-!
# Verification of the QHF chat-history decoder core

Shallow embedding of the core of `qhf_export.py`: the per-byte decryption
transform (`decrypt_message`), the header parser (`parse_qhf_header`) and
the message-stream parser (`parse_qhf_messages`).

A byte is modelled as a `Nat`; a byte stream as a `List Nat` (values `< 256`
on real inputs). A Python `f.read(n)` on a stream holding bytes `s` returns
`s.take n` and leaves `s.drop n`; the embedding passes that remaining list
explicitly. Multi-byte integers are big-endian, as in the
`struct.unpack('>...')` calls of the source.
-/

namespace QhfExport

/-- Big-endian interpretation of a byte list, as produced by
`struct.unpack` with format characters `H` (2 bytes) and `I` (4 bytes). -/
def beNat (b : List Nat) : Nat :=
  b.foldl (fun acc x => acc * 256 + x) 0

/-- `struct.unpack('>H', b)`: succeeds only on exactly 2 bytes,
otherwise raises `struct.error` (modelled as `none`). -/
def unpack_u16 (b : List Nat) : Option Nat :=
  if b.length = 2 then some (beNat b) else none

/-- `struct.unpack('>I', b)`: succeeds only on exactly 4 bytes,
otherwise raises `struct.error` (modelled as `none`). -/
def unpack_u32 (b : List Nat) : Option Nat :=
  if b.length = 4 then some (beNat b) else none

/-! ## Text decoding

`bytes.decode('utf8')` with fallback `bytes.decode('latin1', errors='replace')`.
The UTF-8 decoder is the strict standard one (the Python `utf8` codec):
it rejects continuation-byte leads, overlong forms, surrogate code points
and code points above `0x10FFFF`. latin-1 maps every byte `b` to code point
`b`, so its `errors='replace'` branch never fires. -/

/-- Strict UTF-8 decoding of a byte list into code points; `none` on any
malformed sequence (mirrors Python `bytes.decode('utf8')` raising
`UnicodeDecodeError`). -/
def utf8Decode : List Nat → Option (List Char)
  | [] => some []
  | b0 :: rest =>
    if b0 < 0x80 then
      (utf8Decode rest).map (fun cs => Char.ofNat b0 :: cs)
    else if b0 < 0xC2 then
      none
    else if b0 < 0xE0 then
      match rest with
      | b1 :: rest2 =>
        if 0x80 ≤ b1 ∧ b1 < 0xC0 then
          (utf8Decode rest2).map
            (fun cs => Char.ofNat ((b0 - 0xC0) * 0x40 + (b1 - 0x80)) :: cs)
        else none
      | [] => none
    else if b0 < 0xF0 then
      match rest with
      | b1 :: b2 :: rest3 =>
        let lo1 := if b0 = 0xE0 then 0xA0 else 0x80
        let hi1 := if b0 = 0xED then 0xA0 else 0xC0
        if (lo1 ≤ b1 ∧ b1 < hi1) ∧ (0x80 ≤ b2 ∧ b2 < 0xC0) then
          (utf8Decode rest3).map
            (fun cs =>
              Char.ofNat ((b0 - 0xE0) * 0x1000 + (b1 - 0x80) * 0x40 + (b2 - 0x80)) :: cs)
        else none
      | _ => none
    else if b0 < 0xF5 then
      match rest with
      | b1 :: b2 :: b3 :: rest4 =>
        let lo1 := if b0 = 0xF0 then 0x90 else 0x80
        let hi1 := if b0 = 0xF4 then 0x90 else 0xC0
        if (lo1 ≤ b1 ∧ b1 < hi1) ∧ (0x80 ≤ b2 ∧ b2 < 0xC0) ∧ (0x80 ≤ b3 ∧ b3 < 0xC0) then
          (utf8Decode rest4).map
            (fun cs =>
              Char.ofNat ((b0 - 0xF0) * 0x40000 + (b1 - 0x80) * 0x1000 +
                (b2 - 0x80) * 0x40 + (b3 - 0x80)) :: cs)
        else none
      | _ => none
    else none

/-- `bytes.decode('latin1', errors='replace')`: byte `b` becomes code point
`b` (total, so the replacement branch is dead). -/
def latin1Decode (bs : List Nat) : List Char :=
  bs.map (fun b => Char.ofNat (b % 256))

/-- The two-stage decode used for UIN, nickname and message text:
UTF-8 first, latin-1 with replacement on `UnicodeDecodeError`. -/
def decodeText (bs : List Nat) : String :=
  match utf8Decode bs with
  | some cs => String.mk cs
  | none => String.mk (latin1Decode bs)

/-! ## ByteDecryptor -/

/-- `decrypt_message(msg_bytes)` from the source: byte `v` at 1-based
position `i` becomes `((v + i) & 0xFF) ^ 0xFF` (Python `&` binds tighter
than `^`). -/
def decrypt_message (msg_bytes : List Nat) : List Nat :=
  (msg_bytes.zip (List.range' 1 msg_bytes.length)).map
    (fun val_pos => ((val_pos.1 + val_pos.2) % 256) ^^^ 0xFF)

/-- The position-keyed inverse transform named by the specification: byte
`v` at 1-based position `i` becomes `((v XOR 0xFF) - i) mod 256`
(subtraction and `mod` over ℤ, then back to a byte). -/
def encrypt_message (msg_bytes : List Nat) : List Nat :=
  (msg_bytes.zip (List.range' 1 msg_bytes.length)).map
    (fun val_pos => ((((val_pos.1 ^^^ 0xFF : Nat) : Int) - (val_pos.2 : Int)) % 256).toNat)

/-! ## HeaderParser -/

/-- The `header_info` record produced by `parse_qhf_header`. -/
structure HeaderInfo where
  version : Nat
  uin : String
  nickname : String
deriving Repr, DecidableEq

/-- The distinct `ValueError`s raised by `parse_qhf_header`, one constructor
per raise site; `badMagic` carries the offending magic bytes reported in the
source's error message. -/
inductive FormatError where
  | tooSmall : FormatError
  | badMagic : List Nat → FormatError
  | truncatedUin : FormatError
  | truncatedNick : FormatError
deriving Repr, DecidableEq

/-- `parse_qhf_header(f)` from the source: reads the fixed 46-byte block
(format `'>3sBI36sH'`: 3 magic, 1 version, 4 file-size, 36 reserved,
2 UIN-length), validates the magic `b'QHF'` (bytes `[81, 72, 70]`), then
reads `uin_len` UIN bytes together with the 2-byte nickname length, then
`nick_len` nickname bytes. Returns the header and the rest of the stream. -/
def parse_qhf_header (s : List Nat) : Except FormatError (HeaderInfo × List Nat) :=
  let header_buf := s.take 46
  if header_buf.length < 46 then
    .error .tooSmall
  else
    let magicbytes := header_buf.take 3
    let version := header_buf.getD 3 0
    let uin_len := beNat (header_buf.drop 44)
    let rest1 := s.drop 46
    if magicbytes ≠ [81, 72, 70] then
      .error (.badMagic magicbytes)
    else
      let uin_buf := rest1.take (uin_len + 2)
      if uin_buf.length < uin_len + 2 then
        .error .truncatedUin
      else
        let uin_bytes := uin_buf.take uin_len
        let nick_len := beNat (uin_buf.drop uin_len)
        let rest2 := rest1.drop (uin_len + 2)
        let nick_buf := rest2.take nick_len
        if nick_buf.length < nick_len then
          .error .truncatedNick
        else
          .ok (⟨version, decodeText uin_bytes, decodeText nick_buf⟩, rest2.drop nick_len)

/-! ## MessageStreamParser -/

/-- A decoded message: one entry of the `messages` list built by
`parse_qhf_messages` (the `timestamp_iso` string, derived from
`timestamp_unix` alone, is not modelled). -/
structure Message where
  sender : String
  timestamp_unix : Nat
  is_outgoing : Bool
  message_type_code : Nat
  message_type_description : String
  text : String
deriving Repr, DecidableEq, Inhabited

/-- The static `MESSAGE_TYPE_MAP` dictionary with `.get`-default
"Unknown". -/
def MESSAGE_TYPE_MAP (code : Nat) : String :=
  if code = 1 then "Online message"
  else if code = 2 then "Message sending date"
  else if code = 3 then "Message sender"
  else if code = 5 then "Authorization request"
  else if code = 6 then "Friend request"
  else if code = 13 then "Offline message"
  else if code = 14 then "Authorization request accepted"
  else if code = 80 then "QIP/ICQ service message (connection)"
  else if code = 81 then "QIP/ICQ service message (birthday)"
  else "Unknown"

/-- The fixed message-record size selected once from the header:
`0x23` when `version >= 3`, else `0x21`. -/
def select_msg_header_size (header : HeaderInfo) : Nat :=
  if header.version ≥ 3 then 0x23 else 0x21

/-- The `while True` loop of `parse_qhf_messages`, with explicit fuel (each
iteration consumes at least one byte whenever `msg_header_size > 0`, so
`s.length + 1` fuel reaches the loop's own exit; fuel `0` is never hit from
`parse_qhf_messages`). Returns the accumulated messages together with a
flag recording whether the loop ended through the fatal `struct.error`
branch (`break` after the fixed-field unpack error log). The failing
`msg_header[26]` / `msg_header[27]` lookups raise `IndexError`, caught by
the generic handler as skip-and-continue, hence the separate `none`
branch recursing without consuming a body. -/
def msgLoop (username : String) (msg_header_size : Nat) :
    Nat → List Nat → List Message × Bool
  | 0, _ => ([], false)
  | fuel + 1, s =>
    let msg_header := s.take msg_header_size
    if msg_header.isEmpty then ([], false)
    else if msg_header.length < msg_header_size then ([], false)
    else
      let rest := s.drop msg_header_size
      match unpack_u32 ((msg_header.drop 18).take 4) with
      | none => ([], true)
      | some msg_timestamp_unix =>
        match msg_header[26]?, msg_header[27]? with
        | some flag_byte, some message_type_code =>
          match unpack_u32 (msg_header.drop (msg_header.length - 4)) with
          | none => ([], true)
          | some msg_size =>
            let msg_body_encrypted := rest.take msg_size
            let rest2 := rest.drop msg_size
            if msg_body_encrypted.length < msg_size then
              msgLoop username msg_header_size fuel rest2
            else
              let message_text := decodeText (decrypt_message msg_body_encrypted)
              let m : Message :=
                { sender := if flag_byte != 0 then "Me" else username
                  timestamp_unix := msg_timestamp_unix
                  is_outgoing := flag_byte != 0
                  message_type_code := message_type_code
                  message_type_description := MESSAGE_TYPE_MAP message_type_code
                  text := message_text }
              let rec_result := msgLoop username msg_header_size fuel rest2
              (m :: rec_result.1, rec_result.2)
        | _, _ => msgLoop username msg_header_size fuel rest

/-- `parse_qhf_messages(f, header_info, ...)` from the source: picks the
record size from the header version once, then runs the loop over the
whole remaining stream, returning the messages accumulated until the loop
stops (for any reason). -/
def parse_qhf_messages (header : HeaderInfo) (s : List Nat) : List Message :=
  (msgLoop header.nickname (select_msg_header_size header) (s.length + 1) s).1

/-- Whether `parse_qhf_messages` terminated through the fatal fixed-field
`struct.error` branch (the `except struct.error` log-and-break path). -/
def parse_qhf_messages_fatal (header : HeaderInfo) (s : List Nat) : Bool :=
  (msgLoop header.nickname (select_msg_header_size header) (s.length + 1) s).2

/-- A message record is well formed for record size `hs` when its fixed
part has exactly `hs` bytes and the trailing 4-byte big-endian length
field equals its body length. -/
def WFRecord (hs : Nat) (r : List Nat × List Nat) : Prop :=
  r.1.length = hs ∧ beNat (r.1.drop (hs - 4)) = r.2.length

instance (hs : Nat) (r : List Nat × List Nat) : Decidable (WFRecord hs r) :=
  inferInstanceAs (Decidable (r.1.length = hs ∧ beNat (r.1.drop (hs - 4)) = r.2.length))

/-- Concatenation of message records (fixed part followed by body, in
order) into one stream, used to state the stream-shape claims. -/
def encodeRecords (records : List (List Nat × List Nat)) : List Nat :=
  records.foldr (fun r acc => r.1 ++ (r.2 ++ acc)) []

/-- The message one successful loop iteration builds from a fixed record
`fixed` (of full record size, so the indexed accesses are in range) and
its complete body `body`. -/
def recToMsg (username : String) (r : List Nat × List Nat) : Message :=
  { sender := if r.1.getD 26 0 != 0 then "Me" else username
    timestamp_unix := beNat ((r.1.drop 18).take 4)
    is_outgoing := r.1.getD 26 0 != 0
    message_type_code := r.1.getD 27 0
    message_type_description := MESSAGE_TYPE_MAP (r.1.getD 27 0)
    text := decodeText (decrypt_message r.2) }

end QhfExport

namespace QhfExport

/-! ## Basic facts about the decryption transform -/

theorem decrypt_message_length (b : List Nat) :
    (decrypt_message b).length = b.length := by
  simp [decrypt_message]

theorem encrypt_message_length (b : List Nat) :
    (encrypt_message b).length = b.length := by
  simp [encrypt_message]

theorem decrypt_message_getElem (b : List Nat) (i : Nat) (h : i < b.length)
    (h2 : i < (decrypt_message b).length) :
    (decrypt_message b)[i] = ((b[i] + (i + 1)) % 256) ^^^ 0xFF := by
  simp [decrypt_message, Nat.add_comm]

theorem encrypt_message_getElem (b : List Nat) (i : Nat) (h : i < b.length)
    (h2 : i < (encrypt_message b).length) :
    (encrypt_message b)[i] = ((((b[i] ^^^ 0xFF : Nat) : Int) - ((i + 1) : Int)) % 256).toNat := by
  simp [encrypt_message, Nat.add_comm]

/-- C1: for every byte sequence (including the empty one), `decrypt_message`
is a pure total function returning a sequence of the same length in which the
output byte at 1-based position `i + 1` (0-based index `i`) with input value
`v` is `((v + (i + 1)) % 256) ^^^ 0xFF`; `decrypt_message []` is `[]`. -/
theorem C1_decrypt_transform (b : List Nat) :
    (decrypt_message b).length = b.length ∧
    (∀ i, i < b.length →
      (decrypt_message b).getD i 0 = ((b.getD i 0 + (i + 1)) % 256) ^^^ 0xFF) ∧
    decrypt_message [] = [] := by
  refine ⟨decrypt_message_length b, ?_, rfl⟩
  intro i hi
  have hi' : i < (decrypt_message b).length := by
    simpa [decrypt_message_length] using hi
  rw [List.getD_eq_getElem _ _ hi', List.getD_eq_getElem _ _ hi]
  exact decrypt_message_getElem b i hi hi'

/-- Witness for C1 at the concrete input `[10, 250]`. -/
theorem C1_decrypt_transform_witness :
    (1 < 2 ∧ (decrypt_message [10, 250]).getD 1 0 = ((250 + 2) % 256) ^^^ 0xFF) ∧
    decrypt_message [10, 250] = [244, 3] :=
  ⟨⟨by decide, (C1_decrypt_transform [10, 250]).2.1 1 (by decide)⟩, by decide⟩

/-- C2: the position-keyed transform `encrypt_message` (byte at 1-based
position `i` maps `v` to `((v XOR 0xFF) - i) mod 256`) is an inverse of
`decrypt_message`: for every byte sequence `b` (all values `< 256`, any
length), `decrypt_message (encrypt_message b) = b`. -/
theorem C2_decrypt_roundtrip (b : List Nat) (hb : ∀ v ∈ b, v < 256) :
    decrypt_message (encrypt_message b) = b := by
  apply List.ext_getElem (by simp [decrypt_message_length, encrypt_message_length])
  intro i h1 h2
  have hlen : i < (encrypt_message b).length := by
    simpa [encrypt_message_length] using h2
  rw [decrypt_message_getElem _ i hlen h1, encrypt_message_getElem b i h2 hlen]
  have hv : b[i] < 256 := hb _ (List.getElem_mem h2)
  have hw : b[i] ^^^ 255 < 256 :=
    Nat.xor_lt_two_pow (n := 8) hv (by norm_num)
  have key :
      (((((b[i] ^^^ 255 : Nat) : Int) - ((i : Int) + 1)) % 256).toNat + (i + 1)) % 256 =
        b[i] ^^^ 255 := by
    omega
  rw [show ((0xFF : Nat) = 255) from rfl, key]
  exact Nat.xor_cancel_right _ _

/-- Witness for C2 at the concrete input `[72, 105, 0, 255]`. -/
theorem C2_decrypt_roundtrip_witness :
    (∀ v ∈ [72, 105, 0, 255], v < 256) ∧
      decrypt_message (encrypt_message [72, 105, 0, 255]) = [72, 105, 0, 255] :=
  ⟨by decide, C2_decrypt_roundtrip [72, 105, 0, 255] (by decide)⟩

/-! ## Header parsing claims -/

/-- C6: any stream shorter than the 46-byte fixed header block makes
`parse_qhf_header` fail with the too-small format error. -/
theorem C6_header_too_small (s : List Nat) (h : s.length < 46) :
    parse_qhf_header s = .error .tooSmall := by
  have hlt : (s.take 46).length < 46 := by
    simp only [List.length_take]
    omega
  simp only [parse_qhf_header, if_pos hlt]

/-- Witness for C6 at the empty stream. -/
theorem C6_header_too_small_witness :
    ([] : List Nat).length < 46 ∧ parse_qhf_header [] = .error .tooSmall :=
  ⟨by decide, C6_header_too_small [] (by decide)⟩

/-- C7: any stream of at least 46 bytes whose first 3 bytes differ from
`b'QHF'` (`[81, 72, 70]`) makes `parse_qhf_header` fail with the bad-magic
format error carrying those offending 3 bytes, regardless of anything
after the fixed block (so before any truncation of the variable fields). -/
theorem C7_header_bad_magic (s : List Nat) (h46 : 46 ≤ s.length)
    (hm : s.take 3 ≠ [81, 72, 70]) :
    parse_qhf_header s = .error (.badMagic (s.take 3)) := by
  have hlen : ¬ (s.take 46).length < 46 := by
    simp only [List.length_take]
    omega
  have hmagic : (s.take 46).take 3 = s.take 3 := by
    rw [List.take_take]
    norm_num
  simp only [parse_qhf_header, if_neg hlen, hmagic]
  rw [if_pos hm]

/-- Witness for C7 at a 46-byte all-zero stream. -/
theorem C7_header_bad_magic_witness :
    (46 ≤ (List.replicate 46 0).length ∧ (List.replicate (α := Nat) 46 0).take 3 ≠ [81, 72, 70]) ∧
      parse_qhf_header (List.replicate 46 0) =
        .error (.badMagic ((List.replicate 46 0).take 3)) :=
  ⟨⟨by decide, by decide⟩, C7_header_bad_magic (List.replicate 46 0) (by decide) (by decide)⟩

/-- C5: on any stream whose header region is well formed (magic `b'QHF'`,
and at least `46 + uin_len + 2 + nick_len` bytes where `uin_len` is the
big-endian 16-bit field at offset 44 and `nick_len` the big-endian 16-bit
field at offset `46 + uin_len`), `parse_qhf_header` succeeds, returning the
version byte at offset 3, the UIN decoded (UTF-8 with latin-1 fallback)
from exactly the `uin_len` bytes at offset 46, the nickname decoded from
exactly the `nick_len` bytes at offset `48 + uin_len`, and the stream
remainder starting exactly after the header region. -/
theorem C5_header_success (s : List Nat) (uin_len nick_len : Nat)
    (hm : s.take 3 = [81, 72, 70])
    (hul : uin_len = beNat ((s.drop 44).take 2))
    (hnl : nick_len = beNat ((s.drop (46 + uin_len)).take 2))
    (hlen : 48 + uin_len + nick_len ≤ s.length) :
    parse_qhf_header s =
      .ok ({ version := s.getD 3 0,
             uin := decodeText ((s.drop 46).take uin_len),
             nickname := decodeText ((s.drop (48 + uin_len)).take nick_len) },
           s.drop (48 + uin_len + nick_len)) := by
  have h46 : ¬ (s.take 46).length < 46 := by
    simp only [List.length_take]
    omega
  have hmagic : (s.take 46).take 3 = s.take 3 := by
    rw [List.take_take]
    norm_num
  have hver : (s.take 46).getD 3 0 = s.getD 3 0 := by
    have h1 : 3 < (s.take 46).length := by
      simp only [List.length_take]
      omega
    have h2 : 3 < s.length := by omega
    rw [List.getD_eq_getElem _ _ h1, List.getD_eq_getElem _ _ h2, List.getElem_take]
  have hu44 : (s.take 46).drop 44 = (s.drop 44).take 2 := by
    rw [List.drop_take]
  have huin_buf : ((s.drop 46).take (uin_len + 2)).length = uin_len + 2 := by
    simp only [List.length_take, List.length_drop]
    omega
  have huin_bytes : ((s.drop 46).take (uin_len + 2)).take uin_len = (s.drop 46).take uin_len := by
    rw [List.take_take, Nat.min_eq_left (by omega)]
  have hnick_len : ((s.drop 46).take (uin_len + 2)).drop uin_len = (s.drop (46 + uin_len)).take 2 := by
    rw [List.drop_take, List.drop_drop]
    congr 1
    omega
  have hrest2 : (s.drop 46).drop (uin_len + 2) = s.drop (48 + uin_len) := by
    rw [List.drop_drop]
    congr 1
    omega
  have hnick_buf : ((s.drop (48 + uin_len)).take nick_len).length = nick_len := by
    simp only [List.length_take, List.length_drop]
    omega
  have hfinal : ((s.drop (48 + uin_len)).drop nick_len) = s.drop (48 + uin_len + nick_len) := by
    rw [List.drop_drop]
  simp only [parse_qhf_header, if_neg h46, hmagic, hver, hu44, ← hul, hrest2, hnick_len, ← hnl,
    huin_bytes]
  rw [if_neg (by simp [hm]), if_neg (by omega), if_neg (by omega), hfinal]

/-! ## Message-stream loop lemmas -/

theorem msgLoop_nil (u : String) (hs : Nat) (fuel : Nat) :
    msgLoop u hs fuel [] = ([], false) := by
  cases fuel <;> simp [msgLoop]

theorem msgLoop_step (u : String) (hs : Nat) (h28 : 28 ≤ hs)
    (fixed body tail : List Nat) (fuel : Nat)
    (hf : fixed.length = hs)
    (hb : beNat (fixed.drop (hs - 4)) = body.length) :
    msgLoop u hs (fuel + 1) (fixed ++ (body ++ tail)) =
      ((recToMsg u (fixed, body)) :: (msgLoop u hs fuel tail).1,
       (msgLoop u hs fuel tail).2) := by
  have htake : (fixed ++ (body ++ tail)).take hs = fixed := List.take_left' hf
  have hdrop : (fixed ++ (body ++ tail)).drop hs = body ++ tail := List.drop_left' hf
  have hne : fixed.isEmpty = false := by
    rw [List.isEmpty_eq_false]
    intro hcontra
    rw [hcontra] at hf
    simp at hf
    omega
  have hts : unpack_u32 ((fixed.drop 18).take 4) = some (beNat ((fixed.drop 18).take 4)) := by
    rw [unpack_u32, if_pos]
    simp only [List.length_take, List.length_drop, hf]
    omega
  have hsz : unpack_u32 (fixed.drop (hs - 4)) = some body.length := by
    rw [unpack_u32, if_pos]
    · rw [hb]
    · simp only [List.length_drop, hf]
      omega
  have h26 : fixed[26]? = some (fixed.getD 26 0) := by
    rw [List.getD_eq_getElem _ _ (by omega), List.getElem?_eq_getElem (by omega)]
  have h27 : fixed[27]? = some (fixed.getD 27 0) := by
    rw [List.getD_eq_getElem _ _ (by omega), List.getElem?_eq_getElem (by omega)]
  have hbtake : (body ++ tail).take body.length = body := List.take_left' rfl
  have hbdrop : (body ++ tail).drop body.length = tail := List.drop_left' rfl
  simp only [msgLoop, htake, hdrop, hne, hf, hts, hsz, h26, h27, hbtake, hbdrop, recToMsg]
  simp

theorem msgLoop_truncated (u : String) (hs : Nat) (h28 : 28 ≤ hs)
    (fixed pbody : List Nat) (fuel : Nat)
    (hf : fixed.length = hs)
    (hb : pbody.length < beNat (fixed.drop (hs - 4))) :
    msgLoop u hs (fuel + 1) (fixed ++ pbody) = ([], false) := by
  have htake : (fixed ++ pbody).take hs = fixed := List.take_left' hf
  have hdrop : (fixed ++ pbody).drop hs = pbody := List.drop_left' hf
  have hne : fixed.isEmpty = false := by
    rw [List.isEmpty_eq_false]
    intro hcontra
    rw [hcontra] at hf
    simp at hf
    omega
  have hts : unpack_u32 ((fixed.drop 18).take 4) = some (beNat ((fixed.drop 18).take 4)) := by
    rw [unpack_u32, if_pos]
    simp only [List.length_take, List.length_drop, hf]
    omega
  have hsz : unpack_u32 (fixed.drop (hs - 4)) = some (beNat (fixed.drop (hs - 4))) := by
    rw [unpack_u32, if_pos]
    simp only [List.length_drop, hf]
    omega
  have h26 : fixed[26]? = some (fixed.getD 26 0) := by
    rw [List.getD_eq_getElem _ _ (by omega), List.getElem?_eq_getElem (by omega)]
  have h27 : fixed[27]? = some (fixed.getD 27 0) := by
    rw [List.getD_eq_getElem _ _ (by omega), List.getElem?_eq_getElem (by omega)]
  have hbtake : pbody.take (beNat (fixed.drop (hs - 4))) = pbody :=
    List.take_of_length_le (le_of_lt hb)
  have hbdrop : pbody.drop (beNat (fixed.drop (hs - 4))) = [] :=
    List.drop_eq_nil_of_le (le_of_lt hb)
  simp only [msgLoop, htake, hdrop, hne, hf, hts, hsz, h26, h27, hbtake, hbdrop, recToMsg]
  simp [hb, msgLoop_nil]

theorem msgLoop_records (u : String) (hs : Nat) (h28 : 28 ≤ hs)
    (records : List (List Nat × List Nat)) :
    ∀ (tail : List Nat) (fuel : Nat), (∀ r ∈ records, WFRecord hs r) →
    msgLoop u hs (records.length + fuel) (encodeRecords records ++ tail) =
      ((records.map (recToMsg u)) ++ (msgLoop u hs fuel tail).1,
       (msgLoop u hs fuel tail).2) := by
  induction records with
  | nil =>
    intro tail fuel _
    simp [encodeRecords]
  | cons r rs ih =>
    intro tail fuel h
    have hshape : encodeRecords (r :: rs) ++ tail =
        r.1 ++ (r.2 ++ (encodeRecords rs ++ tail)) := by
      simp [encodeRecords, List.append_assoc]
    have hw : WFRecord hs r := h r (by simp)
    have hlen : (r :: rs).length + fuel = (rs.length + fuel) + 1 := by
      simp [List.length_cons]
      omega
    rw [hshape, hlen, msgLoop_step u hs h28 r.1 r.2 _ _ hw.1 hw.2,
      ih _ _ (fun x hx => h x (by simp [hx]))]
    simp

theorem msgLoop_records_closed (u : String) (hs : Nat) (h28 : 28 ≤ hs)
    (records : List (List Nat × List Nat)) (fuel : Nat)
    (hwf : ∀ r ∈ records, WFRecord hs r) :
    msgLoop u hs (records.length + fuel) (encodeRecords records) =
      (records.map (recToMsg u), false) := by
  have := msgLoop_records u hs h28 records [] fuel hwf
  simpa [msgLoop_nil] using this

theorem encodeRecords_length_ge (records : List (List Nat × List Nat)) (hs : Nat)
    (h1 : 1 ≤ hs) (hwf : ∀ r ∈ records, WFRecord hs r) :
    records.length ≤ (encodeRecords records).length := by
  induction records with
  | nil => simp [encodeRecords]
  | cons r rs ih =>
    have hw : WFRecord hs r := hwf r (by simp)
    have hr : r.1.length = hs := hw.1
    have := ih (fun x hx => hwf x (by simp [hx]))
    simp only [encodeRecords, List.foldr_cons, List.length_append, List.length_cons] at *
    omega

theorem msgLoop_no_fatal (u : String) (hs : Nat) (h28 : 28 ≤ hs) :
    ∀ (fuel : Nat) (s : List Nat), (msgLoop u hs fuel s).2 = false := by
  intro fuel
  induction fuel with
  | zero => intro s; rfl
  | succ f ih =>
    intro s
    by_cases hemp : (s.take hs).isEmpty
    · simp [msgLoop, hemp]
    · by_cases hlt : s.length < hs
      · simp [msgLoop, hemp, hlt]
      · have hmin : hs ⊓ s.length = hs := Nat.min_eq_left (Nat.le_of_not_lt hlt)
        have hts : unpack_u32 (((s.take hs).drop 18).take 4) =
            some (beNat (((s.take hs).drop 18).take 4)) := by
          rw [unpack_u32, if_pos]
          simp only [List.length_take, List.length_drop, hmin]
          omega
        have hsz : unpack_u32 ((s.take hs).drop (hs - 4)) =
            some (beNat ((s.take hs).drop (hs - 4))) := by
          rw [unpack_u32, if_pos]
          simp only [List.length_drop, List.length_take, hmin]
          omega
        rcases h26 : (s.take hs)[26]? with _ | flag
        · simp [msgLoop, hemp, hlt, hmin, hts, h26, ih]
        · rcases h27 : (s.take hs)[27]? with _ | tcode
          · simp [msgLoop, hemp, hlt, hmin, hts, h26, h27, ih]
          · by_cases hbody : s.length - hs < beNat ((s.take hs).drop (hs - 4))
            · simp [msgLoop, hemp, hlt, hmin, hts, hsz, h26, h27, hbody, ih]
            · simp [msgLoop, hemp, hlt, hmin, hts, hsz, h26, h27, hbody, ih]

/-- Witness for C5 at a concrete 50-byte stream: version 2, `uin_len = 1`
(UIN byte `53`, i.e. "5"), `nick_len = 1` (nickname byte `65`, i.e. "A"). -/
theorem C5_header_success_witness :
    parse_qhf_header ([81, 72, 70, 2] ++ List.replicate 40 0 ++ [0, 1, 53, 0, 1, 65]) =
      .ok ({ version := ([81, 72, 70, 2] ++ List.replicate 40 0 ++ [0, 1, 53, 0, 1, 65]).getD 3 0,
             uin := decodeText ((([81, 72, 70, 2] ++ List.replicate 40 0 ++
               [0, 1, 53, 0, 1, 65]).drop 46).take 1),
             nickname := decodeText ((([81, 72, 70, 2] ++ List.replicate 40 0 ++
               [0, 1, 53, 0, 1, 65]).drop 49).take 1) },
           ([81, 72, 70, 2] ++ List.replicate 40 0 ++ [0, 1, 53, 0, 1, 65]).drop 50) :=
  C5_header_success ([81, 72, 70, 2] ++ List.replicate 40 0 ++ [0, 1, 53, 0, 1, 65]) 1 1
    (by decide) (by decide) (by decide) (by decide)

/-! ## Message-stream claims -/

theorem parse_qhf_messages_records (header : HeaderInfo)
    (records : List (List Nat × List Nat))
    (hwf : ∀ r ∈ records, WFRecord (select_msg_header_size header) r) :
    parse_qhf_messages header (encodeRecords records) =
      records.map (recToMsg header.nickname) := by
  have h28 : 28 ≤ select_msg_header_size header := by
    unfold select_msg_header_size
    split <;> omega
  have hge : records.length ≤ (encodeRecords records).length :=
    encodeRecords_length_ge records (select_msg_header_size header) (by omega) hwf
  have hfuel : (encodeRecords records).length + 1 =
      records.length + ((encodeRecords records).length + 1 - records.length) := by
    omega
  unfold parse_qhf_messages
  rw [hfuel, msgLoop_records_closed header.nickname _ h28 records _ hwf]

/-- C3: for every header and every stream that is exactly the
concatenation of well-formed message records (a full fixed record of the
version-selected size followed by exactly the number of body bytes its
trailing 4-byte big-endian length field declares), `parse_qhf_messages`
returns exactly one message per record, in record order: the result is the
record list mapped through the per-record decoding, so in particular its
length is the number of records. -/
theorem C3_all_records_in_order (header : HeaderInfo)
    (records : List (List Nat × List Nat))
    (hwf : ∀ r ∈ records, WFRecord (select_msg_header_size header) r) :
    parse_qhf_messages header (encodeRecords records) =
      records.map (recToMsg header.nickname) ∧
    (parse_qhf_messages header (encodeRecords records)).length = records.length := by
  have h := parse_qhf_messages_records header records hwf
  exact ⟨h, by rw [h, List.length_map]⟩

/-- Witness for C3: a version-2 header and one well-formed 33-byte record
carrying a 1-byte body. -/
theorem C3_all_records_in_order_witness :
    (∀ r ∈ [(List.replicate 26 0 ++ [1, 1, 0, 0, 0, 0, 1], [5])],
      WFRecord (select_msg_header_size ⟨2, "12345", "Alice"⟩) r) ∧
    parse_qhf_messages ⟨2, "12345", "Alice"⟩
        (encodeRecords [(List.replicate 26 0 ++ [1, 1, 0, 0, 0, 0, 1], [5])]) =
      [(List.replicate 26 0 ++ [1, 1, 0, 0, 0, 0, 1], [5])].map
        (recToMsg (HeaderInfo.mk 2 "12345" "Alice").nickname) ∧
    (parse_qhf_messages ⟨2, "12345", "Alice"⟩
        (encodeRecords [(List.replicate 26 0 ++ [1, 1, 0, 0, 0, 0, 1], [5])])).length = 1 :=
  ⟨by decide,
   (C3_all_records_in_order ⟨2, "12345", "Alice"⟩
     [(List.replicate 26 0 ++ [1, 1, 0, 0, 0, 0, 1], [5])] (by decide)).1,
   (C3_all_records_in_order ⟨2, "12345", "Alice"⟩
     [(List.replicate 26 0 ++ [1, 1, 0, 0, 0, 0, 1], [5])] (by decide)).2⟩

/-- C4: if a stream is the concatenation of well-formed records followed by
one record whose full fixed part is present but whose declared body length
exceeds the bytes remaining after it, `parse_qhf_messages` still returns
successfully (no fatal termination), with exactly the messages of the
well-formed records; the truncated record contributes no message. -/
theorem C4_truncated_body_skipped (header : HeaderInfo)
    (records : List (List Nat × List Nat)) (fixedK pbody : List Nat)
    (hwf : ∀ r ∈ records, WFRecord (select_msg_header_size header) r)
    (hfk : fixedK.length = select_msg_header_size header)
    (htr : pbody.length < beNat (fixedK.drop (select_msg_header_size header - 4))) :
    parse_qhf_messages header (encodeRecords records ++ (fixedK ++ pbody)) =
      records.map (recToMsg header.nickname) ∧
    (parse_qhf_messages header (encodeRecords records ++ (fixedK ++ pbody))).length =
      records.length ∧
    parse_qhf_messages_fatal header (encodeRecords records ++ (fixedK ++ pbody)) = false := by
  have h28 : 28 ≤ select_msg_header_size header := by
    unfold select_msg_header_size
    split <;> omega
  have hge : records.length ≤ (encodeRecords records).length :=
    encodeRecords_length_ge records (select_msg_header_size header) (by omega) hwf
  have hfuel : (encodeRecords records ++ (fixedK ++ pbody)).length + 1 =
      records.length +
        ((encodeRecords records ++ (fixedK ++ pbody)).length + 1 - records.length) := by
    simp only [List.length_append]
    omega
  have hpos : 1 ≤ (encodeRecords records ++ (fixedK ++ pbody)).length + 1 - records.length := by
    simp only [List.length_append]
    omega
  have htail : msgLoop header.nickname (select_msg_header_size header)
      ((encodeRecords records ++ (fixedK ++ pbody)).length + 1 - records.length)
      (fixedK ++ pbody) = ([], false) := by
    rw [show (encodeRecords records ++ (fixedK ++ pbody)).length + 1 - records.length =
        ((encodeRecords records ++ (fixedK ++ pbody)).length + 1 - records.length - 1) + 1 by
      omega]
    exact msgLoop_truncated header.nickname _ h28 fixedK pbody _ hfk htr
  have hmain := msgLoop_records header.nickname _ h28 records (fixedK ++ pbody)
    ((encodeRecords records ++ (fixedK ++ pbody)).length + 1 - records.length) hwf
  rw [htail] at hmain
  refine ⟨?_, ?_, ?_⟩
  · unfold parse_qhf_messages
    rw [hfuel, hmain]
    simp
  · unfold parse_qhf_messages
    rw [hfuel, hmain]
    simp
  · unfold parse_qhf_messages_fatal
    rw [hfuel, hmain]

/-- Witness for C4: one well-formed record, then a 33-byte fixed record
declaring a 5-byte body with only 1 byte left in the stream. -/
theorem C4_truncated_body_skipped_witness :
    parse_qhf_messages ⟨2, "12345", "Alice"⟩
        (encodeRecords [(List.replicate 26 0 ++ [1, 1, 0, 0, 0, 0, 1], [5])] ++
          ((List.replicate 26 0 ++ [0, 0, 0, 0, 0, 0, 5]) ++ [9])) =
      [(List.replicate 26 0 ++ [1, 1, 0, 0, 0, 0, 1], [5])].map
        (recToMsg (HeaderInfo.mk 2 "12345" "Alice").nickname) ∧
    (parse_qhf_messages ⟨2, "12345", "Alice"⟩
        (encodeRecords [(List.replicate 26 0 ++ [1, 1, 0, 0, 0, 0, 1], [5])] ++
          ((List.replicate 26 0 ++ [0, 0, 0, 0, 0, 0, 5]) ++ [9]))).length = 1 ∧
    parse_qhf_messages_fatal ⟨2, "12345", "Alice"⟩
        (encodeRecords [(List.replicate 26 0 ++ [1, 1, 0, 0, 0, 0, 1], [5])] ++
          ((List.replicate 26 0 ++ [0, 0, 0, 0, 0, 0, 5]) ++ [9])) = false :=
  C4_truncated_body_skipped ⟨2, "12345", "Alice"⟩
    [(List.replicate 26 0 ++ [1, 1, 0, 0, 0, 0, 1], [5])]
    (List.replicate 26 0 ++ [0, 0, 0, 0, 0, 0, 5]) [9]
    (by decide) (by decide) (by decide)

/-- C8: the fixed record size used by `parse_qhf_messages` is `0x23` (35)
exactly when the header version is at least 3 and `0x21` (33) otherwise;
it is computed once from the header (`select_msg_header_size`) and the
whole stream is processed by the loop at that single size. -/
theorem C8_record_size_selection (header : HeaderInfo) (s : List Nat) :
    (select_msg_header_size header = 0x23 ↔ 3 ≤ header.version) ∧
    (select_msg_header_size header = 0x21 ↔ header.version < 3) ∧
    parse_qhf_messages header s =
      (msgLoop header.nickname (select_msg_header_size header) (s.length + 1) s).1 := by
  refine ⟨?_, ?_, rfl⟩ <;>
    (unfold select_msg_header_size; split <;> (constructor <;> omega))

/-- C9 counterexample: with nickname "Me" and an incoming record (byte 26
of the record is 0), the parsed message has sender "Me" while its outgoing
flag is not set, so "sender is Me if and only if the outgoing flag is set"
fails at this concrete input. -/
theorem C9_sender_iff_counterexample :
    ∃ m, m ∈ parse_qhf_messages ⟨2, "12345", "Me"⟩ (List.replicate 33 0) ∧
      m.sender = "Me" ∧ m.is_outgoing = false := by
  decide

/-- C9 (amended): for every message produced from a stream of well-formed
records, the sender is the literal "Me" if the outgoing flag (the byte at
fixed offset 26 of its record) is set, and the header's nickname
otherwise; the message's outgoing flag equals that byte's nonzero test.
(The original "if and only if" direction fails when the nickname is
itself "Me".) -/
theorem C9_sender_from_flag (header : HeaderInfo)
    (records : List (List Nat × List Nat))
    (hwf : ∀ r ∈ records, WFRecord (select_msg_header_size header) r)
    (i : Nat) (hi : i < records.length) :
    ((parse_qhf_messages header (encodeRecords records)).getD i default).sender =
      (if (records.getD i ([], [])).1.getD 26 0 != 0 then "Me" else header.nickname) ∧
    ((parse_qhf_messages header (encodeRecords records)).getD i default).is_outgoing =
      ((records.getD i ([], [])).1.getD 26 0 != 0) := by
  rw [parse_qhf_messages_records header records hwf]
  have hlen : i < (records.map (recToMsg header.nickname)).length := by
    simpa using hi
  rw [List.getD_eq_getElem _ _ hlen, List.getD_eq_getElem _ _ hi, List.getElem_map]
  exact ⟨rfl, rfl⟩

/-- Witness for C9 (amended): an outgoing record (byte 26 set) under
nickname "Alice" yields sender "Me" and the outgoing flag. -/
theorem C9_sender_from_flag_witness :
    ((parse_qhf_messages ⟨2, "12345", "Alice"⟩
        (encodeRecords [(List.replicate 26 0 ++ [1, 0, 0, 0, 0, 0, 0], [])])).getD 0
          default).sender =
      (if ([(List.replicate 26 0 ++ [1, 0, 0, 0, 0, 0, 0], ([] : List Nat))].getD 0
          ([], [])).1.getD 26 0 != 0 then "Me"
        else (HeaderInfo.mk 2 "12345" "Alice").nickname) ∧
    ((parse_qhf_messages ⟨2, "12345", "Alice"⟩
        (encodeRecords [(List.replicate 26 0 ++ [1, 0, 0, 0, 0, 0, 0], [])])).getD 0
          default).is_outgoing =
      (([(List.replicate 26 0 ++ [1, 0, 0, 0, 0, 0, 0], ([] : List Nat))].getD 0
          ([], [])).1.getD 26 0 != 0) :=
  C9_sender_from_flag ⟨2, "12345", "Alice"⟩
    [(List.replicate 26 0 ++ [1, 0, 0, 0, 0, 0, 0], [])] (by decide) 0 (by decide)

/-- C10: the fatal fixed-field unpack branch of the message loop is
unreachable: for every header and every input stream,
`parse_qhf_messages` never terminates through the `struct.error` path,
because once a full fixed record of the version-selected size (33 or 35
bytes) is read, the 4-byte timestamp slice at 18..22, the bytes at offsets
26 and 27, and the trailing 4-byte length slice all exist. -/
theorem C10_fixed_unpack_unreachable (header : HeaderInfo) (s : List Nat) :
    parse_qhf_messages_fatal header s = false := by
  have h28 : 28 ≤ select_msg_header_size header := by
    unfold select_msg_header_size
    split <;> omega
  exact msgLoop_no_fatal header.nickname _ h28 _ s


end QhfExport
